import Mathlib

/-!
# Verification of the forum per-category rate-limiting middleware

A shallow embedding of `middleware/rate_limit.go` (and the response
helpers from `utils/response.go`) of the `forum` repository, together
with theorems checking the natural-language specification against it.

Modelling conventions:
* Go `time.Time` and `time.Duration` become `Int` nanoseconds (Go
  durations are `int64` nanoseconds; overflow is irrelevant at the
  scales involved).
* Go maps become association lists (`List (key × value)`); the real
  maps have unique keys, and iteration order — unspecified in Go — is
  modelled as list order.
* Each HTTP request is modelled by the pure transition
  `handleRequest`, which performs exactly the steps of the
  `RateLimit` handler: classify the path, fetch-or-create the
  visitor (with capacity eviction), check-and-increment the
  per-category counter, emit the `X-RateLimit-*` headers and either
  short-circuit with a 429 response (`Decision.response = some _`)
  or pass the request to the wrapped handler
  (`Decision.response = none`).
-/

namespace ForumRL

/-! ## Association lists (model of Go maps) -/

/-- Lookup in an association list: model of Go map read `m[k]` paired
with the `exists` flag (`none` = key absent, i.e. `exists = false`). -/
def alookup {α β : Type} [DecidableEq α] (k : α) : List (α × β) → Option β
  | [] => none
  | (a, b) :: t => if a = k then some b else alookup k t

/-- Insert/update in an association list: model of Go map write
`m[k] = v` (replaces the existing entry or appends a new one). -/
def ainsert {α β : Type} [DecidableEq α] (k : α) (v : β) : List (α × β) → List (α × β)
  | [] => [(k, v)]
  | (a, b) :: t => if a = k then (k, v) :: t else (a, b) :: ainsert k v t

/-- Deletion from an association list: model of Go `delete(m, k)`. -/
def aerase {α β : Type} [DecidableEq α] (k : α) : List (α × β) → List (α × β)
  | [] => []
  | (a, b) :: t => if a = k then t else (a, b) :: aerase k t

@[simp] theorem alookup_nil {α β : Type} [DecidableEq α] (k : α) :
    alookup (β := β) k [] = none := rfl

@[simp] theorem alookup_cons {α β : Type} [DecidableEq α] (k a : α) (b : β) (t : List (α × β)) :
    alookup k ((a, b) :: t) = if a = k then some b else alookup k t := rfl

@[simp] theorem ainsert_nil {α β : Type} [DecidableEq α] (k : α) (v : β) :
    ainsert k v [] = [(k, v)] := rfl

@[simp] theorem ainsert_cons {α β : Type} [DecidableEq α] (k a : α) (v b : β) (t : List (α × β)) :
    ainsert k v ((a, b) :: t) = if a = k then (k, v) :: t else (a, b) :: ainsert k v t := rfl

@[simp] theorem alookup_ainsert_self {α β : Type} [DecidableEq α] (k : α) (v : β)
    (l : List (α × β)) : alookup k (ainsert k v l) = some v := by
  induction l with
  | nil => simp [ainsert]
  | cons hd t ih =>
      obtain ⟨a, b⟩ := hd
      by_cases hak : a = k <;> simp [ainsert, hak, ih]

@[simp] theorem alookup_ainsert_ne {α β : Type} [DecidableEq α] {k k' : α} (v : β)
    (l : List (α × β)) (h : k ≠ k') : alookup k' (ainsert k v l) = alookup k' l := by
  induction l with
  | nil => simp [ainsert, h]
  | cons hd t ih =>
      obtain ⟨a, b⟩ := hd
      by_cases hak : a = k
      · subst hak
        simp [ainsert, h]
      · simp only [ainsert, if_neg hak, alookup_cons]
        by_cases hak' : a = k' <;> simp [hak', ih]

@[simp] theorem length_ainsert_of_alookup_none {α β : Type} [DecidableEq α] {k : α} (v : β)
    {l : List (α × β)} (h : alookup k l = none) :
    (ainsert k v l).length = l.length + 1 := by
  induction l with
  | nil => simp [ainsert]
  | cons hd t ih =>
      obtain ⟨a, b⟩ := hd
      by_cases hak : a = k
      · simp [alookup, hak] at h
      · simp only [alookup, if_neg hak] at h
        simp [ainsert, hak, ih h]

theorem length_ainsert_of_alookup_some {α β : Type} [DecidableEq α] {k : α} (v w : β)
    {l : List (α × β)} (h : alookup k l = some w) :
    (ainsert k v l).length = l.length := by
  induction l with
  | nil => simp [alookup] at h
  | cons hd t ih =>
      obtain ⟨a, b⟩ := hd
      by_cases hak : a = k
      · simp [ainsert, hak]
      · simp only [alookup, if_neg hak] at h
        simp [ainsert, hak, ih h]

theorem alookup_aerase_ne {α β : Type} [DecidableEq α] {k k' : α}
    (l : List (α × β)) (h : k ≠ k') : alookup k' (aerase k l) = alookup k' l := by
  induction l with
  | nil => simp [aerase]
  | cons hd t ih =>
      obtain ⟨a, b⟩ := hd
      by_cases hak : a = k
      · subst hak
        simp [aerase, alookup_cons, if_neg h]
      · simp only [aerase, if_neg hak, alookup_cons]
        by_cases hak' : a = k' <;> simp [hak', ih]

theorem aerase_length_of_mem {α β : Type} [DecidableEq α] {k : α}
    {l : List (α × β)} (h : alookup k l ≠ none) :
    (aerase k l).length + 1 = l.length := by
  induction l with
  | nil => simp [alookup] at h
  | cons hd t ih =>
      obtain ⟨a, b⟩ := hd
      by_cases hak : a = k
      · simp [aerase, hak]
      · simp only [alookup, if_neg hak] at h
        simp [aerase, hak, ih h]

/-! ## Rate-limit configuration (from `middleware/rate_limit.go`) -/

/-- Model of `RateLimitConfig` from the source: a request budget and a window.
`window` is an `Int` count of nanoseconds, as Go's `time.Duration`. -/
structure RateLimitConfig where
  maxRequests : Int
  window : Int
deriving DecidableEq, Repr

/-- One Go `time.Second` in nanoseconds. -/
def nsSecond : Int := 1000000000

/-- One Go `time.Minute` in nanoseconds. -/
def nsMinute : Int := 60 * nsSecond

/-- One Go `time.Hour` in nanoseconds. -/
def nsHour : Int := 60 * nsMinute

/-- The compiled-in `rateLimits` table of the source. -/
def rateLimits : List (String × RateLimitConfig) :=
  [("auth", RateLimitConfig.mk 10 (10 * nsMinute)),
   ("posts", RateLimitConfig.mk 100 nsHour),
   ("comments", RateLimitConfig.mk 80 nsHour),
   ("users", RateLimitConfig.mk 30 (10 * nsMinute)),
   ("categories", RateLimitConfig.mk 50 nsHour),
   ("default", RateLimitConfig.mk 60 nsMinute)]

/-- Model of `getRateLimitConfigUnsafe` from the source: the category's entry if
present, otherwise the `"default"` entry (a missing `"default"` entry
yields Go's zero value, as the source's map read would). The table is
a parameter because `SetRateLimit` can mutate the global at runtime. -/
def getRateLimitConfigUnsafe (limits : List (String × RateLimitConfig))
    (category : String) : RateLimitConfig :=
  match alookup category limits with
  | some config => config
  | none => (alookup "default" limits).getD (RateLimitConfig.mk 0 0)

/-! ## Path classification (from `determineCategory` and `RateLimit`) -/

/-- Go `strings.TrimPrefix` on character lists: drop `p` from the
front of `s` when it is there, else return `s` unchanged. -/
def trimPfxL (p s : List Char) : List Char :=
  if p.isPrefixOf s then s.drop p.length else s

/-- Go `strings.TrimPrefix (s, p)`. -/
def trimPfx (s p : String) : String := String.mk (trimPfxL p.data s.data)

/-- Is a character the separator `'/'`. -/
def isSlash (c : Char) : Bool := c = '/'

/-- Is a character distinct from the separator `'/'`. -/
def notSlash (c : Char) : Bool := c ≠ '/'

/-- Remove trailing slashes. -/
def rtrimSlash (s : List Char) : List Char :=
  (s.reverse.dropWhile isSlash).reverse

/-- Go `strings.Trim (path, "/")`: remove every leading and trailing
slash. -/
def trimSlashL (s : List Char) : List Char :=
  rtrimSlash (s.dropWhile isSlash)

/-- Model of `determineCategory` from the source, on character lists: trim the
slashes; an empty result is `"default"`, otherwise the part before the
first slash (`strings.SplitN (path, "/", 2)[0]`). -/
def determineCategoryL (path : List Char) : List Char :=
  let path := trimSlashL path
  if path = [] then "default".data else path.takeWhile notSlash

/-- Model of `determineCategory` from the source. -/
def determineCategory (path : String) : String :=
  String.mk (determineCategoryL path.data)

/-- The category computation of the `RateLimit` handler (lines
184–194): strip one leading `/`, strip a leading `api/`, run
`determineCategory`, and fall back to `"default"` on an empty
result. -/
def classifyPath (urlPath : String) : String :=
  let path := trimPfx urlPath "/"
  let path := trimPfx path "api/"
  let category := determineCategory path
  if category = "" then "default" else category

/-- Go `strings.Split` on `'/'` (the spec-side notion of path
segments). -/
def splitSlash : List Char → List (List Char)
  | [] => [[]]
  | c :: t =>
      if isSlash c then [] :: splitSlash t
      else
        match splitSlash t with
        | [] => [[c]]
        | s :: r => (c :: s) :: r

/-- Follows the spec's words, for comparison with `classifyPath`:
"takes the first non-empty path segment after removing a known API
prefix; an empty or root path classifies as `\x22default\x22`". -/
def specClassify (urlPath : String) : String :=
  let rest := (trimPfx (trimPfx urlPath "/") "api/").data
  match (splitSlash rest).filter (fun s => !s.isEmpty) with
  | [] => "default"
  | s :: _ => String.mk s

/-! ## Visitor state and the check-and-increment step -/

/-- The `visitor` struct of the source: per-category request counts
and last-seen timestamps (the `sync.RWMutex` guards it in Go; the
critical section it protects is the atomic step `checkAndIncrement`
below). -/
structure Visitor where
  requests : List (String × Int)
  lastSeen : List (String × Int)
deriving DecidableEq, Repr

/-- The critical section of `RateLimit` (lines 202–214): reset the
counter to 0 when there is no entry or the window has expired, then
increment, stamp `lastSeen`, and return the post-increment count. -/
def checkAndIncrement (cfg : RateLimitConfig) (category : String) (now : Int)
    (v : Visitor) : Visitor × Int :=
  let requests :=
    match alookup category v.lastSeen with
    | none => ainsert category 0 v.requests
    | some lastSeen =>
        if now - lastSeen > cfg.window then ainsert category 0 v.requests
        else v.requests
  let reqCount := (alookup category requests).getD 0 + 1
  (Visitor.mk (ainsert category reqCount requests) (ainsert category now v.lastSeen),
   reqCount)

/-- The eviction scan of `getVisitor` (lines 118–131): walk every
`lastSeen` timestamp of every visitor, tracking the strictly oldest
one seen so far; the accumulator starts at `("", now)` as in the
source (`oldestTime := time.Now()`). -/
def findOldest (now : Int) (vs : List (String × Visitor)) : String × Int :=
  vs.foldl
    (fun acc p =>
      p.2.lastSeen.foldl (fun acc2 e => if e.2 < acc2.2 then (p.1, e.2) else acc2) acc)
    ("", now)

/-- Model of `getVisitor` from the source: return the existing record, or —
evicting the visitor found by the oldest-scan when at capacity —
insert and return a fresh empty one. `maxVisitors` is a parameter
because `SetMaxVisitors` can mutate the global. -/
def getVisitor (maxVisitors : Nat) (now : Int) (ip : String)
    (vs : List (String × Visitor)) : List (String × Visitor) × Visitor :=
  match alookup ip vs with
  | some v => (vs, v)
  | none =>
      let vs1 :=
        if maxVisitors ≤ vs.length then
          let oldest := findOldest now vs
          if oldest.1 ≠ "" then aerase oldest.1 vs else vs
        else vs
      (ainsert ip (Visitor.mk [] []) vs1, Visitor.mk [] [])

/-! ## Responses, headers, and the full request transition -/

/-- Model of `utils.APIResponse` as populated by `utils.Error`: `Success`,
`Message` and `Error` fields (`Data` stays nil and is omitted from
the JSON). -/
structure APIResponse where
  success : Bool
  message : String
  error : String
deriving DecidableEq, Repr

/-- Model of `utils.Error` from `utils/response.go`: an error JSON response
with the given status code, `success = false` and
`message = "Request failed"`. -/
def Error (statusCode : Int) (message : String) : Int × APIResponse :=
  (statusCode, APIResponse.mk false "Request failed" message)

/-- Modelled from the spec: `utils.TooManyRequests` is called by the
middleware but its definition is not among the source files; per the
spec ("On rejection it returns HTTP status 429 with a JSON body of
shape ...") it sends `utils.Error` with HTTP status 429. -/
def TooManyRequests (message : String) : Int × APIResponse :=
  Error 429 message

/-- Models Go fmt `%v` of a `time.Duration` (`Duration.String`)
restricted to nonnegative whole-second durations — which every window
in the policy table and in the claims is. (Sub-second and negative
durations print differently in Go and are outside the model.) -/
def durationString (d : Int) : String :=
  let total := d / nsSecond
  let s := total % 60
  let m := total / 60 % 60
  let h := total / 3600
  if total = 0 then "0s"
  else
    (if h = 0 then "" else toString h ++ "h")
      ++ (if h = 0 ∧ m = 0 then "" else toString m ++ "m")
      ++ (toString s ++ "s")

/-- The rejection message built by `RateLimit` (lines 221–223) via
`fmt.Sprintf`. -/
def rateLimitMessage (category : String) (cfg : RateLimitConfig) : String :=
  "Rate limit exceeded for " ++ category ++ ": " ++ toString cfg.maxRequests
    ++ " requests allowed per " ++ durationString cfg.window

/-- The three `X-RateLimit-*` header values, as the strings the source
writes with `strconv`. -/
structure RateHeaders where
  limit : String
  remaining : String
  reset : String
deriving DecidableEq, Repr

/-- Go `Time.Unix()`: whole seconds of a nanosecond timestamp
(faithful for the nonnegative timestamps of our traces). -/
def unixSeconds (t : Int) : Int := t / nsSecond

/-- Model of `setRateLimitHeaders` from the source (lines 233–242). -/
def setRateLimitHeaders (cfg : RateLimitConfig) (count : Int)
    (lastSeen : Int) : RateHeaders :=
  let remaining := cfg.maxRequests - count
  let remaining := if remaining < 0 then 0 else remaining
  RateHeaders.mk (toString cfg.maxRequests) (toString remaining)
    (toString (unixSeconds (lastSeen + cfg.window)))

/-- Everything one request's pass through the middleware produces:
the derived category and policy, the post-increment count, the
headers, and `response = some (status, body)` when the request is
rejected (the wrapped handler is not invoked) or `none` when control
passes through to the wrapped handler. -/
structure Decision where
  category : String
  cfg : RateLimitConfig
  reqCount : Int
  headers : RateHeaders
  response : Option (Int × APIResponse)
deriving DecidableEq, Repr

/-- The `visitors` registry (the Go package-level map). -/
structure RegState where
  visitors : List (String × Visitor)
deriving DecidableEq, Repr

/-- One request through the `RateLimit` handler: classification,
visitor fetch/create (with capacity eviction), check-and-increment,
headers, and the allow/deny outcome. `ip` is the ClientKey
(`extractIP(r.RemoteAddr)`), `now` the request's `time.Now()`. -/
def handleRequest (maxVisitors : Nat) (limits : List (String × RateLimitConfig))
    (ip urlPath : String) (now : Int) (st : RegState) : RegState × Decision :=
  let category := classifyPath urlPath
  let gv := getVisitor maxVisitors now ip st.visitors
  let cfg := getRateLimitConfigUnsafe limits category
  let ci := checkAndIncrement cfg category now gv.2
  let visitors1 := ainsert ip ci.1 gv.1
  let headers := setRateLimitHeaders cfg ci.2 now
  let response :=
    if ci.2 > cfg.maxRequests then some (TooManyRequests (rateLimitMessage category cfg))
    else none
  (RegState.mk visitors1, Decision.mk category cfg ci.2 headers response)

/-- A sequence of requests from one client to one path, at the given
times; returns the final registry and the per-request decisions. -/
def runRequests (maxVisitors : Nat) (limits : List (String × RateLimitConfig))
    (ip urlPath : String) : List Int → RegState → RegState × List Decision
  | [], st => (st, [])
  | t :: ts, st =>
      let r := handleRequest maxVisitors limits ip urlPath t st
      let rest := runRequests maxVisitors limits ip urlPath ts r.1
      (rest.1, r.2 :: rest.2)

/-- A sequence of check-and-increment steps on one visitor for one
fixed category; returns the final visitor and the post-increment
counts. -/
def runTimes (cfg : RateLimitConfig) (category : String) :
    List Int → Visitor → Visitor × List Int
  | [], v => (v, [])
  | t :: ts, v =>
      let s := checkAndIncrement cfg category t v
      let rest := runTimes cfg category ts s.1
      (rest.1, s.2 :: rest.2)

/-! ## Classification lemmas -/

theorem notSlash_true {c : Char} (h : isSlash c = false) : notSlash c = true := by
  simp [isSlash] at h
  simp [notSlash, h]

theorem notSlash_false {c : Char} (h : isSlash c = true) : notSlash c = false := by
  simp [isSlash] at h
  simp [notSlash, h]

theorem splitSlash_head (l : List Char) :
    ∃ r, splitSlash l = l.takeWhile notSlash :: r := by
  induction l with
  | nil => exact ⟨[], rfl⟩
  | cons c t ih =>
      cases hsl : isSlash c with
      | true =>
          refine ⟨splitSlash t, ?_⟩
          simp [splitSlash, hsl, List.takeWhile_cons, notSlash_false hsl]
      | false =>
          obtain ⟨r, hr⟩ := ih
          refine ⟨r, ?_⟩
          simp [splitSlash, hsl, hr, List.takeWhile_cons, notSlash_true hsl]

theorem rtrimSlash_decomp (l : List Char) :
    ∃ k, l = rtrimSlash l ++ List.replicate k '/' := by
  refine ⟨(l.reverse.takeWhile isSlash).length, ?_⟩
  have h1 : l.reverse.takeWhile isSlash ++ l.reverse.dropWhile isSlash = l.reverse :=
    List.takeWhile_append_dropWhile isSlash l.reverse
  have h2 : l.reverse.takeWhile isSlash =
      List.replicate (l.reverse.takeWhile isSlash).length '/' := by
    apply List.eq_replicate_of_mem
    intro b hb
    have hbs := List.mem_takeWhile_imp hb
    simpa [isSlash] using hbs
  calc
    l = l.reverse.reverse := (List.reverse_reverse l).symm
    _ = (l.reverse.dropWhile isSlash).reverse ++ (l.reverse.takeWhile isSlash).reverse := by
          rw [← List.reverse_append, h1]
    _ = rtrimSlash l ++ List.replicate (l.reverse.takeWhile isSlash).length '/' := by
          conv_lhs => rw [h2, List.reverse_replicate]
          rfl

theorem takeWhile_append_replicate (a : List Char) (k : Nat) :
    (a ++ List.replicate k '/').takeWhile notSlash = a.takeWhile notSlash := by
  have hns : notSlash '/' = false := by decide
  induction a with
  | nil =>
      cases k with
      | zero => simp
      | succ n => simp [List.replicate, List.takeWhile_cons, hns]
  | cons x a ih =>
      cases hx : notSlash x <;> simp [List.takeWhile_cons, hx, ih]

theorem takeWhile_rtrimSlash (l : List Char) :
    (rtrimSlash l).takeWhile notSlash = l.takeWhile notSlash := by
  obtain ⟨k, hk⟩ := rtrimSlash_decomp l
  conv_rhs => rw [hk]
  rw [takeWhile_append_replicate]

theorem rtrimSlash_cons_ne_nil {c : Char} (t : List Char) (hc : notSlash c = true) :
    rtrimSlash (c :: t) ≠ [] := by
  intro h
  obtain ⟨k, hk⟩ := rtrimSlash_decomp (c :: t)
  rw [h, List.nil_append] at hk
  cases k with
  | zero => simp at hk
  | succ n =>
      rw [List.replicate] at hk
      have hcs : c = '/' := (List.cons_eq_cons.mp hk).1
      rw [notSlash, hcs] at hc
      simp at hc

/-- The category computed by `determineCategory` is exactly the first
non-empty slash-separated segment of the path (or `"default"` when
there is none). -/
theorem determineCategoryL_eq_spec (l : List Char) :
    determineCategoryL l =
      (match (splitSlash l).filter (fun s => !s.isEmpty) with
       | [] => "default".data
       | s :: _ => s) := by
  induction l with
  | nil => rfl
  | cons c t ih =>
      cases hsl : isSlash c with
      | true =>
          have hL : determineCategoryL (c :: t) = determineCategoryL t := by
            simp [determineCategoryL, trimSlashL, List.dropWhile_cons, hsl]
          have hR : splitSlash (c :: t) = [] :: splitSlash t := by
            simp [splitSlash, hsl]
          rw [hL, ih, hR]
          simp
      | false =>
          have hc : notSlash c = true := notSlash_true hsl
          have hdrop : (c :: t).dropWhile isSlash = c :: t := by
            simp [List.dropWhile_cons, hsl]
          have hne := rtrimSlash_cons_ne_nil t hc
          have hL : determineCategoryL (c :: t) = c :: t.takeWhile notSlash := by
            simp only [determineCategoryL, trimSlashL, hdrop, if_neg hne]
            rw [takeWhile_rtrimSlash]
            simp [List.takeWhile_cons, hc]
          obtain ⟨r, hr⟩ := splitSlash_head (c :: t)
          have htw : (c :: t).takeWhile notSlash = c :: t.takeWhile notSlash := by
            simp [List.takeWhile_cons, hc]
          rw [hL, hr, htw]
          simp

theorem determineCategoryL_ne_nil (l : List Char) : determineCategoryL l ≠ [] := by
  rw [determineCategoryL_eq_spec]
  cases hf : (splitSlash l).filter (fun s => !s.isEmpty) with
  | nil => simp [hf]
  | cons s r =>
      have hmem : s ∈ (splitSlash l).filter (fun s => !s.isEmpty) := by
        rw [hf]
        exact List.mem_cons_self s r
      have hs := List.of_mem_filter hmem
      simp only [hf]
      simpa using hs

theorem determineCategory_ne_empty (s : String) : determineCategory s ≠ "" := by
  intro h
  apply determineCategoryL_ne_nil s.data
  have hd := congrArg String.data h
  simpa [determineCategory] using hd

/-! ## Single-client run machinery -/

/-- A visitor that has been seen for exactly one category, with count
`k` and last-seen time `t`. -/
def soloVisitor (c : String) (k t : Int) : Visitor :=
  Visitor.mk [(c, k)] [(c, t)]

/-- The decision a single pass of the middleware produces, given the
post-increment count `cnt` at time `now`. -/
def stepDecision (cfg : RateLimitConfig) (c : String) (now cnt : Int) : Decision :=
  Decision.mk c cfg cnt (setRateLimitHeaders cfg cnt now)
    (if cnt > cfg.maxRequests then some (TooManyRequests (rateLimitMessage c cfg)) else none)

@[simp] theorem stepDecision_reqCount (cfg : RateLimitConfig) (c : String) (now cnt : Int) :
    (stepDecision cfg c now cnt).reqCount = cnt := rfl

@[simp] theorem stepDecision_cfg (cfg : RateLimitConfig) (c : String) (now cnt : Int) :
    (stepDecision cfg c now cnt).cfg = cfg := rfl

@[simp] theorem stepDecision_category (cfg : RateLimitConfig) (c : String) (now cnt : Int) :
    (stepDecision cfg c now cnt).category = c := rfl

@[simp] theorem stepDecision_headers (cfg : RateLimitConfig) (c : String) (now cnt : Int) :
    (stepDecision cfg c now cnt).headers = setRateLimitHeaders cfg cnt now := rfl

theorem stepDecision_response_none (cfg : RateLimitConfig) (c : String) (now cnt : Int) :
    (stepDecision cfg c now cnt).response = none ↔ cnt ≤ cfg.maxRequests := by
  by_cases h : cnt > cfg.maxRequests <;> simp [stepDecision, h] <;> omega

/-- Equation form of `handleRequest`: the registry write-back of
the stepped visitor, and the decision built from the post-increment
count. -/
theorem handleRequest_eq (maxV : Nat) (limits : List (String × RateLimitConfig))
    (ip urlPath : String) (now : Int) (st : RegState) :
    handleRequest maxV limits ip urlPath now st =
      (RegState.mk (ainsert ip
          (checkAndIncrement (getRateLimitConfigUnsafe limits (classifyPath urlPath))
            (classifyPath urlPath) now (getVisitor maxV now ip st.visitors).2).1
          (getVisitor maxV now ip st.visitors).1),
       stepDecision (getRateLimitConfigUnsafe limits (classifyPath urlPath))
         (classifyPath urlPath) now
         (checkAndIncrement (getRateLimitConfigUnsafe limits (classifyPath urlPath))
           (classifyPath urlPath) now (getVisitor maxV now ip st.visitors).2).2) := rfl

theorem getVisitor_existing (maxV : Nat) (now : Int) (ip : String)
    (vs : List (String × Visitor)) (v : Visitor) (h : alookup ip vs = some v) :
    getVisitor maxV now ip vs = (vs, v) := by
  simp [getVisitor, h]

theorem getVisitor_fresh_below (maxV : Nat) (now : Int) (ip : String)
    (vs : List (String × Visitor)) (h : alookup ip vs = none) (hcap : vs.length < maxV) :
    getVisitor maxV now ip vs = (ainsert ip (Visitor.mk [] []) vs, Visitor.mk [] []) := by
  simp [getVisitor, h, Nat.not_le.mpr hcap]

theorem checkAndIncrement_fresh (cfg : RateLimitConfig) (c : String) (now : Int) :
    checkAndIncrement cfg c now (Visitor.mk [] []) = (soloVisitor c 1 now, 1) := by
  simp [checkAndIncrement, soloVisitor, alookup, ainsert]

theorem checkAndIncrement_solo_no_reset (cfg : RateLimitConfig) (c : String)
    (now k t : Int) (h : now - t ≤ cfg.window) :
    checkAndIncrement cfg c now (soloVisitor c k t) = (soloVisitor c (k + 1) now, k + 1) := by
  simp [checkAndIncrement, soloVisitor, alookup, ainsert, if_neg (not_lt.mpr h)]

/-- The per-request decisions of a straight (reset-free) run whose
counter starts at `k`, one per request time. -/
def decisionsFrom (cfg : RateLimitConfig) (c : String) : Int → List Int → List Decision
  | _, [] => []
  | k, t :: ts => stepDecision cfg c t (k + 1) :: decisionsFrom cfg c (k + 1) ts

@[simp] theorem decisionsFrom_nil (cfg : RateLimitConfig) (c : String) (k : Int) :
    decisionsFrom cfg c k [] = [] := rfl

@[simp] theorem decisionsFrom_cons (cfg : RateLimitConfig) (c : String) (k t : Int)
    (ts : List Int) :
    decisionsFrom cfg c k (t :: ts) =
      stepDecision cfg c t (k + 1) :: decisionsFrom cfg c (k + 1) ts := rfl

theorem decisionsFrom_length (cfg : RateLimitConfig) (c : String) :
    ∀ (ts : List Int) (k : Int), (decisionsFrom cfg c k ts).length = ts.length := by
  intro ts
  induction ts with
  | nil => intro k; rfl
  | cons t ts ih => intro k; simp [decisionsFrom, ih]

theorem decisionsFrom_mem (cfg : RateLimitConfig) (c : String) :
    ∀ (ts : List Int) (k : Int) (d : Decision), d ∈ decisionsFrom cfg c k ts →
      ∃ (i : Nat) (t : Int), i < ts.length ∧ t ∈ ts ∧ d = stepDecision cfg c t (k + 1 + i) := by
  intro ts
  induction ts with
  | nil => intro k d hd; simp [decisionsFrom] at hd
  | cons t ts ih =>
      intro k d hd
      rcases List.mem_cons.mp hd with h0 | h1
      · refine ⟨0, t, by simp, by simp, ?_⟩
        simpa using h0
      · obtain ⟨i, u, hi, hu, he⟩ := ih (k + 1) d h1
        refine ⟨i + 1, u, by simp only [List.length_cons]; omega, List.mem_cons_of_mem t hu, ?_⟩
        rw [he]
        congr 1
        push_cast
        ring

/-- A reset-free run: when every request follows the previous one
inside the window, each request just increments the counter and
restamps `lastSeen`. -/
theorem runRequests_solo (maxV : Nat) (limits : List (String × RateLimitConfig))
    (ip urlPath : String) :
    ∀ (ts : List Int) (k tp : Int),
      List.Chain
        (fun a b => a ≤ b ∧
          b - a ≤ (getRateLimitConfigUnsafe limits (classifyPath urlPath)).window) tp ts →
      runRequests maxV limits ip urlPath ts
          (RegState.mk [(ip, soloVisitor (classifyPath urlPath) k tp)]) =
        (RegState.mk [(ip, soloVisitor (classifyPath urlPath) (k + (ts.length : Int))
            (ts.getLastD tp))],
         decisionsFrom (getRateLimitConfigUnsafe limits (classifyPath urlPath))
           (classifyPath urlPath) k ts) := by
  intro ts
  induction ts with
  | nil =>
      intro k tp _
      simp [runRequests]
  | cons t ts ih =>
      intro k tp hchain
      rcases List.chain_cons.mp hchain with ⟨⟨hle, hgap⟩, htail⟩
      have hget : getVisitor maxV t ip [(ip, soloVisitor (classifyPath urlPath) k tp)] =
          ([(ip, soloVisitor (classifyPath urlPath) k tp)],
           soloVisitor (classifyPath urlPath) k tp) :=
        getVisitor_existing maxV t ip _ (soloVisitor (classifyPath urlPath) k tp)
          (by simp [alookup])
      have hstep :
          handleRequest maxV limits ip urlPath t
              (RegState.mk [(ip, soloVisitor (classifyPath urlPath) k tp)]) =
            (RegState.mk [(ip, soloVisitor (classifyPath urlPath) (k + 1) t)],
             stepDecision (getRateLimitConfigUnsafe limits (classifyPath urlPath))
               (classifyPath urlPath) t (k + 1)) := by
        rw [handleRequest_eq, hget, checkAndIncrement_solo_no_reset _ _ _ _ _ hgap]
        simp [soloVisitor, ainsert]
      have hlast : ts.getLastD t = (t :: ts).getLastD tp := by
        cases ts with
        | nil => rfl
        | cons b bs => rfl
      simp only [runRequests, hstep, ih (k + 1) t htail, decisionsFrom_cons,
        List.length_cons]
      rw [← hlast]
      rw [show k + 1 + (ts.length : Int) = k + ((ts.length : Nat) + 1 : Nat) by push_cast; ring]

theorem chain_within_window (W t0 : Int) (rest : List Int)
    (hs : List.Chain (fun a b => a ≤ b) t0 rest) (hw : ∀ t ∈ rest, t ≤ t0 + W) :
    List.Chain (fun a b => a ≤ b ∧ b - a ≤ W) t0 rest := by
  induction rest generalizing t0 with
  | nil => exact List.Chain.nil
  | cons b bs ih =>
      rcases List.chain_cons.mp hs with ⟨hab, hbs⟩
      have hb : b ≤ t0 + W := hw b (List.mem_cons_self b bs)
      refine List.chain_cons.mpr ⟨⟨hab, by omega⟩, ih b hbs ?_⟩
      intro t ht
      have := hw t (List.mem_cons_of_mem b ht)
      omega

theorem checkAndIncrement_reset (cfg : RateLimitConfig) (c : String) (now t : Int)
    (v : Visitor) (hls : alookup c v.lastSeen = some t) (hgap : now - t > cfg.window) :
    checkAndIncrement cfg c now v =
      (Visitor.mk (ainsert c 1 (ainsert c 0 v.requests)) (ainsert c now v.lastSeen), 1) := by
  simp [checkAndIncrement, hls, if_pos hgap, alookup_ainsert_self]

/-- Whatever branch the window test takes, the stepped visitor stores
the post-increment count and the request's timestamp for the stepped
category. -/
theorem checkAndIncrement_post_lookup (cfg : RateLimitConfig) (c : String) (now : Int)
    (v : Visitor) :
    alookup c ((checkAndIncrement cfg c now v).1).requests =
        some (checkAndIncrement cfg c now v).2 ∧
    alookup c ((checkAndIncrement cfg c now v).1).lastSeen = some now := by
  simp only [checkAndIncrement]
  cases h : alookup c v.lastSeen with
  | none => simp [alookup_ainsert_self]
  | some t =>
      by_cases hg : now - t > cfg.window <;> simp [hg, alookup_ainsert_self]

theorem decisionsFrom_get? (cfg : RateLimitConfig) (c : String) :
    ∀ (ts : List Int) (k : Int) (i : Nat), i < ts.length →
      ∃ t ∈ ts, (decisionsFrom cfg c k ts).get? i =
        some (stepDecision cfg c t (k + 1 + i)) := by
  intro ts
  induction ts with
  | nil => intro k i h; simp at h
  | cons t ts ih =>
      intro k i h
      cases i with
      | zero =>
          refine ⟨t, List.mem_cons_self t ts, ?_⟩
          simp [decisionsFrom]
      | succ j =>
          have h' : j < ts.length := by
            simp only [List.length_cons] at h
            omega
          obtain ⟨u, hu, he⟩ := ih (k + 1) j h'
          refine ⟨u, List.mem_cons_of_mem t hu, ?_⟩
          rw [decisionsFrom_cons, List.get?_cons_succ, he]
          congr 2
          push_cast
          ring

/-! ## Claim C6 -/

/-- C6: classification is a pure total function of the request path:
the category the middleware computes (`classifyPath`) equals, on
every path string, the first non-empty path segment after removing
the API prefix (`specClassify`), is never the empty string, and the
empty and root paths classify as `"default"`. -/
theorem C6_classification_pure_total :
    (∀ p : String, classifyPath p = specClassify p ∧ classifyPath p ≠ "") ∧
    classifyPath "" = "default" ∧ classifyPath "/" = "default" := by
  refine ⟨fun p => ?_, rfl, rfl⟩
  have hne : determineCategory (trimPfx (trimPfx p "/") "api/") ≠ "" :=
    determineCategory_ne_empty _
  constructor
  · cases hf : (splitSlash (trimPfx (trimPfx p "/") "api/").data).filter
        (fun s => !s.isEmpty) with
    | nil =>
        have hdl : determineCategoryL (trimPfx (trimPfx p "/") "api/").data =
            "default".data := by
          rw [determineCategoryL_eq_spec, hf]
        simp only [classifyPath, specClassify, determineCategory, hdl, hf]
        decide
    | cons s r =>
        have hmem : s ∈ (splitSlash (trimPfx (trimPfx p "/") "api/").data).filter
            (fun s => !s.isEmpty) := by
          rw [hf]
          exact List.mem_cons_self s r
        have hs : s ≠ [] := by
          have hb := List.of_mem_filter hmem
          simpa using hb
        have hdl : determineCategoryL (trimPfx (trimPfx p "/") "api/").data = s := by
          rw [determineCategoryL_eq_spec, hf]
        have hmkne : String.mk s ≠ "" := by
          intro hh
          apply hs
          simpa using congrArg String.data hh
        simp only [classifyPath, specClassify, determineCategory, hdl, hf]
        rw [if_neg hmkne]
  · simp only [classifyPath, if_neg hne]
    exact hne

/-! ## Claim C3 -/

/-- C3: with policy `(max = N, window = W)` for the request's category
and a fixed client, `N+1` requests all within `W` of the first (times
nondecreasing, fresh client) get post-increment counts `1, …, N+1`;
requests `1..N` pass through to the wrapped handler
(`response = none`) and the `(N+1)`-th is rejected. -/
theorem C3_over_budget_rejected (maxV : Nat) (limits : List (String × RateLimitConfig))
    (ip urlPath : String) (N : Nat) (W t0 : Int) (rest : List Int)
    (hmv : 1 ≤ maxV)
    (hcfg : getRateLimitConfigUnsafe limits (classifyPath urlPath) =
      RateLimitConfig.mk (N : Int) W)
    (hlen : rest.length = N)
    (hsorted : List.Chain (fun a b => a ≤ b) t0 rest)
    (hwin : ∀ t ∈ rest, t ≤ t0 + W) :
    ((runRequests maxV limits ip urlPath (t0 :: rest) (RegState.mk [])).2).length = N + 1 ∧
    ∀ i : Nat, i ≤ N →
      ∃ d, ((runRequests maxV limits ip urlPath (t0 :: rest) (RegState.mk [])).2).get? i =
          some d ∧
        d.reqCount = (i : Int) + 1 ∧ (d.response = none ↔ i + 1 ≤ N) := by
  have hget : getVisitor maxV t0 ip [] =
      (ainsert ip (Visitor.mk [] []) [], Visitor.mk [] []) :=
    getVisitor_fresh_below maxV t0 ip [] rfl (by simpa using hmv)
  have hstep0 : handleRequest maxV limits ip urlPath t0 (RegState.mk []) =
      (RegState.mk [(ip, soloVisitor (classifyPath urlPath) 1 t0)],
       stepDecision (getRateLimitConfigUnsafe limits (classifyPath urlPath))
         (classifyPath urlPath) t0 1) := by
    rw [handleRequest_eq, hget, checkAndIncrement_fresh]
    simp [ainsert]
  have hchain : List.Chain
      (fun a b => a ≤ b ∧
        b - a ≤ (getRateLimitConfigUnsafe limits (classifyPath urlPath)).window) t0 rest := by
    rw [hcfg]
    exact chain_within_window W t0 rest hsorted hwin
  have hrun := runRequests_solo maxV limits ip urlPath rest 1 t0 hchain
  have hds : (runRequests maxV limits ip urlPath (t0 :: rest) (RegState.mk [])).2 =
      stepDecision (getRateLimitConfigUnsafe limits (classifyPath urlPath))
          (classifyPath urlPath) t0 1 ::
        decisionsFrom (getRateLimitConfigUnsafe limits (classifyPath urlPath))
          (classifyPath urlPath) 1 rest := by
    simp only [runRequests, hstep0, hrun]
  constructor
  · rw [hds]
    simp [decisionsFrom_length, hlen]
  · intro i hiN
    cases i with
    | zero =>
      refine ⟨stepDecision (getRateLimitConfigUnsafe limits (classifyPath urlPath))
        (classifyPath urlPath) t0 1, ?_, ?_, ?_⟩
      · rw [hds]
        rfl
      · simp
      · rw [stepDecision_response_none, hcfg]
        show (1 : Int) ≤ (N : Int) ↔ 0 + 1 ≤ N
        omega
    | succ j =>
      have hj : j < rest.length := by omega
      obtain ⟨u, hu, he⟩ := decisionsFrom_get?
        (getRateLimitConfigUnsafe limits (classifyPath urlPath)) (classifyPath urlPath)
        rest 1 j hj
      refine ⟨stepDecision (getRateLimitConfigUnsafe limits (classifyPath urlPath))
        (classifyPath urlPath) u (1 + 1 + j), ?_, ?_, ?_⟩
      · rw [hds, List.get?_cons_succ, he]
      · simp only [stepDecision_reqCount]
        push_cast
        ring
      · rw [stepDecision_response_none, hcfg]
        show (1 + 1 + (j : Int) ≤ (N : Int)) ↔ (j + 1 + 1 ≤ N)
        omega

/-- Concrete instance of C3: budget 2, window 1000ns, requests at
times 0, 1, 2 — counts 1, 2, 3; the first two accepted, the third
rejected. -/
theorem C3_over_budget_rejected_witness :
    ((runRequests 10 [("auth", RateLimitConfig.mk 2 1000)] "5.5.5.5" "/api/auth/login"
        (0 :: [1, 2]) (RegState.mk [])).2).length = 2 + 1 ∧
    ∀ i : Nat, i ≤ 2 →
      ∃ d, ((runRequests 10 [("auth", RateLimitConfig.mk 2 1000)] "5.5.5.5"
          "/api/auth/login" (0 :: [1, 2]) (RegState.mk [])).2).get? i = some d ∧
        d.reqCount = (i : Int) + 1 ∧ (d.response = none ↔ i + 1 ≤ 2) :=
  C3_over_budget_rejected 10 [("auth", RateLimitConfig.mk 2 1000)] "5.5.5.5"
    "/api/auth/login" 2 1000 0 [1, 2] (by decide) (by decide) (by decide)
    (List.Chain.cons (by decide) (List.Chain.cons (by decide) List.Chain.nil)) (by decide)

/-! ## Claim C1 -/

/-- C1 counterexample: with budget 2 and a 10ns window, requests at
times 0, 6 and 12: the request at time 12 is more than one window
after the FIRST request (12 − 0 > 10), yet its post-increment count
is 3 — not 1 — and it is rejected, because the code measures the
window from the MOST RECENT request (12 − 6 ≤ 10), not from the
first. -/
theorem C1_counterexample :
    (12 : Int) - 0 > 10 ∧
    ((runRequests 10000 [("auth", RateLimitConfig.mk 2 10)] "1.2.3.4" "/api/auth/login"
        [0, 6, 12] (RegState.mk [])).2).map Decision.reqCount = [1, 2, 3] ∧
    ((runRequests 10000 [("auth", RateLimitConfig.mk 2 10)] "1.2.3.4" "/api/auth/login"
        [0, 6, 12] (RegState.mk [])).2).map (fun d => d.response.isSome) =
      [false, false, true] := by
  refine ⟨by decide, ?_, ?_⟩ <;> rfl

/-- C1 (amended): the fresh window is measured from the most recent
request, not the first: whenever the stored `lastSeen` of the
request's category lies more than one window before `now`, the
counter resets — the request's post-increment count is 1, it is
accepted (given a budget of at least 1), and the stored state shows
count 1 at time `now`. -/
theorem C1_amended_fresh_window (maxV : Nat) (limits : List (String × RateLimitConfig))
    (ip urlPath : String) (now t : Int) (v : Visitor)
    (hls : alookup (classifyPath urlPath) v.lastSeen = some t)
    (hgap : now - t > (getRateLimitConfigUnsafe limits (classifyPath urlPath)).window)
    (hmax : 1 ≤ (getRateLimitConfigUnsafe limits (classifyPath urlPath)).maxRequests) :
    ((handleRequest maxV limits ip urlPath now (RegState.mk [(ip, v)])).2).reqCount = 1 ∧
    ((handleRequest maxV limits ip urlPath now (RegState.mk [(ip, v)])).2).response = none ∧
    ∃ v', alookup ip ((handleRequest maxV limits ip urlPath now
        (RegState.mk [(ip, v)])).1).visitors = some v' ∧
      alookup (classifyPath urlPath) v'.requests = some 1 ∧
      alookup (classifyPath urlPath) v'.lastSeen = some now := by
  have hget : getVisitor maxV now ip [(ip, v)] = ([(ip, v)], v) :=
    getVisitor_existing maxV now ip _ v (by simp [alookup])
  have hci := checkAndIncrement_reset (getRateLimitConfigUnsafe limits (classifyPath urlPath))
    (classifyPath urlPath) now t v hls hgap
  refine ⟨?_, ?_, ?_⟩
  · rw [handleRequest_eq]
    simp only [hget, hci, stepDecision_reqCount]
  · rw [handleRequest_eq]
    simp only [hget, hci]
    rw [stepDecision_response_none]
    exact hmax
  · rw [handleRequest_eq]
    simp only [hget, hci]
    refine ⟨_, alookup_ainsert_self ip _ _, ?_, ?_⟩
    · exact alookup_ainsert_self _ _ _
    · exact alookup_ainsert_self _ _ _

/-- Concrete instance of the amended C1. -/
theorem C1_amended_fresh_window_witness :
    ((handleRequest 10000 rateLimits "9.9.9.9" "/api/auth/x" 700000000000
        (RegState.mk [("9.9.9.9", Visitor.mk [("auth", 10)] [("auth", 0)])])).2).reqCount = 1 ∧
    ((handleRequest 10000 rateLimits "9.9.9.9" "/api/auth/x" 700000000000
        (RegState.mk [("9.9.9.9", Visitor.mk [("auth", 10)] [("auth", 0)])])).2).response =
      none ∧
    ∃ v', alookup "9.9.9.9" ((handleRequest 10000 rateLimits "9.9.9.9" "/api/auth/x"
        700000000000 (RegState.mk [("9.9.9.9", Visitor.mk [("auth", 10)]
          [("auth", 0)])])).1).visitors = some v' ∧
      alookup (classifyPath "/api/auth/x") v'.requests = some 1 ∧
      alookup (classifyPath "/api/auth/x") v'.lastSeen = some 700000000000 :=
  C1_amended_fresh_window 10000 rateLimits "9.9.9.9" "/api/auth/x" 700000000000 0
    (Visitor.mk [("auth", 10)] [("auth", 0)]) (by decide) (by decide) (by decide)

/-! ## Claim C9 -/

/-- C9: every request — accepted or rejected alike — increments the
category counter and restamps `lastSeen` before the limit check
(first conjunct); consequently a client whose stored count has
reached the budget keeps being rejected for as long as each further
request follows its predecessor within the window, regardless of the
total time elapsed since the window began (second conjunct). -/
theorem C9_rejected_requests_update_state :
    (∀ (maxV : Nat) (limits : List (String × RateLimitConfig)) (ip urlPath : String)
        (now : Int) (st : RegState),
      ∃ v', alookup ip ((handleRequest maxV limits ip urlPath now st).1).visitors =
          some v' ∧
        alookup ((handleRequest maxV limits ip urlPath now st).2).category v'.lastSeen =
          some now ∧
        alookup ((handleRequest maxV limits ip urlPath now st).2).category v'.requests =
          some ((handleRequest maxV limits ip urlPath now st).2).reqCount) ∧
    (∀ (maxV : Nat) (limits : List (String × RateLimitConfig)) (ip urlPath : String)
        (k tp : Int) (ts : List Int),
      (getRateLimitConfigUnsafe limits (classifyPath urlPath)).maxRequests ≤ k →
      List.Chain (fun a b => a ≤ b ∧
        b - a ≤ (getRateLimitConfigUnsafe limits (classifyPath urlPath)).window) tp ts →
      ∀ d ∈ (runRequests maxV limits ip urlPath ts
          (RegState.mk [(ip, soloVisitor (classifyPath urlPath) k tp)])).2,
        d.response ≠ none) := by
  constructor
  · intro maxV limits ip urlPath now st
    rw [handleRequest_eq]
    refine ⟨_, alookup_ainsert_self ip _ _, ?_, ?_⟩
    · simp only [stepDecision_category]
      exact (checkAndIncrement_post_lookup _ _ _ _).2
    · simp only [stepDecision_category, stepDecision_reqCount]
      exact (checkAndIncrement_post_lookup _ _ _ _).1
  · intro maxV limits ip urlPath k tp ts hk hchain d hd
    rw [runRequests_solo maxV limits ip urlPath ts k tp hchain] at hd
    obtain ⟨i, t, hi, ht, hde⟩ := decisionsFrom_mem _ _ ts k d hd
    rw [hde, Ne, stepDecision_response_none]
    omega

/-- Concrete instance of C9: a rejected request still stores its
count and timestamp, and an exhausted client (count 10 of 10 for
`auth`) stays rejected at short gaps. -/
theorem C9_witness :
    (∃ v', alookup "7.7.7.7" ((handleRequest 100 rateLimits "7.7.7.7" "/api/posts/9" 5
        (RegState.mk [])).1).visitors = some v' ∧
      alookup ((handleRequest 100 rateLimits "7.7.7.7" "/api/posts/9" 5
          (RegState.mk [])).2).category v'.lastSeen = some 5 ∧
      alookup ((handleRequest 100 rateLimits "7.7.7.7" "/api/posts/9" 5
          (RegState.mk [])).2).category v'.requests =
        some ((handleRequest 100 rateLimits "7.7.7.7" "/api/posts/9" 5
          (RegState.mk [])).2).reqCount) ∧
    (∀ d ∈ (runRequests 100 rateLimits "7.7.7.7" "/api/auth/login" [10, 20]
        (RegState.mk [("7.7.7.7",
          soloVisitor (classifyPath "/api/auth/login") 10 0)])).2,
      d.response ≠ none) :=
  ⟨C9_rejected_requests_update_state.1 100 rateLimits "7.7.7.7" "/api/posts/9" 5
      (RegState.mk []),
   C9_rejected_requests_update_state.2 100 rateLimits "7.7.7.7" "/api/auth/login" 10 0
      [10, 20] (by decide)
      (List.Chain.cons (by decide) (List.Chain.cons (by decide) List.Chain.nil))⟩

/-! ## Claim C5 -/

theorem if_neg_zero_eq_max (x : Int) : (if x < 0 then 0 else x) = max 0 x := by
  by_cases h : x < 0
  · rw [if_pos h]
    omega
  · rw [if_neg h]
    omega

/-- C5: every decision — accepted or rejected — carries accounting
headers with `X-RateLimit-Limit = maxRequests`,
`X-RateLimit-Remaining = max 0 (maxRequests − count)` for the
post-increment count, and `X-RateLimit-Reset` the Unix seconds of
`lastSeen(category) + window` where `lastSeen(category)` is the
timestamp the request just stored; concretely, with policy
`(max = 100, window = 1m)`, after 37 accepted requests the remaining
header reads `63` and the limit header `100`. -/
theorem C5_accounting_headers :
    (∀ (maxV : Nat) (limits : List (String × RateLimitConfig)) (ip urlPath : String)
        (now : Int) (st : RegState),
      ((handleRequest maxV limits ip urlPath now st).2).headers.limit =
        toString ((handleRequest maxV limits ip urlPath now st).2).cfg.maxRequests ∧
      ((handleRequest maxV limits ip urlPath now st).2).headers.remaining =
        toString (max 0 (((handleRequest maxV limits ip urlPath now st).2).cfg.maxRequests -
          ((handleRequest maxV limits ip urlPath now st).2).reqCount)) ∧
      (∃ v', alookup ip ((handleRequest maxV limits ip urlPath now st).1).visitors =
          some v' ∧
        ∃ ls, alookup ((handleRequest maxV limits ip urlPath now st).2).category
            v'.lastSeen = some ls ∧
          ((handleRequest maxV limits ip urlPath now st).2).headers.reset =
            toString (unixSeconds
              (ls + ((handleRequest maxV limits ip urlPath now st).2).cfg.window)))) ∧
    (((runRequests 10000 [("categories", RateLimitConfig.mk 100 nsMinute)] "3.3.3.3"
        "/api/categories" ((List.range 37).map fun n => (n : Int))
        (RegState.mk [])).2).length = 37 ∧
     (∀ d ∈ ((runRequests 10000 [("categories", RateLimitConfig.mk 100 nsMinute)] "3.3.3.3"
        "/api/categories" ((List.range 37).map fun n => (n : Int))
        (RegState.mk [])).2), d.response = none ∧ d.headers.limit = "100") ∧
     (((runRequests 10000 [("categories", RateLimitConfig.mk 100 nsMinute)] "3.3.3.3"
        "/api/categories" ((List.range 37).map fun n => (n : Int))
        (RegState.mk [])).2).map (fun d => d.headers.remaining)).getLast? = some "63") := by
  constructor
  · intro maxV limits ip urlPath now st
    rw [handleRequest_eq]
    refine ⟨rfl, ?_, ?_⟩
    · simp only [stepDecision_headers, stepDecision_cfg, stepDecision_reqCount,
        setRateLimitHeaders]
      rw [if_neg_zero_eq_max]
    · refine ⟨_, alookup_ainsert_self ip _ _, now, ?_, ?_⟩
      · simp only [stepDecision_category]
        exact (checkAndIncrement_post_lookup _ _ _ _).2
      · rfl
  · refine ⟨by rfl, by decide, by rfl⟩

/-! ## Claim C7 -/

/-- The stepped visitor leaves every other category's count and
timestamp untouched. -/
theorem checkAndIncrement_frame (cfg : RateLimitConfig) (c : String) (now : Int)
    (v : Visitor) (c2 : String) (hc2 : c2 ≠ c) :
    alookup c2 ((checkAndIncrement cfg c now v).1).requests = alookup c2 v.requests ∧
    alookup c2 ((checkAndIncrement cfg c now v).1).lastSeen = alookup c2 v.lastSeen := by
  have hne : c ≠ c2 := Ne.symm hc2
  simp only [checkAndIncrement]
  cases h : alookup c v.lastSeen with
  | none => simp [alookup_ainsert_ne _ _ hne]
  | some t =>
      by_cases hg : now - t > cfg.window <;> simp [hg, alookup_ainsert_ne _ _ hne]

/-- Below capacity, `getVisitor` hands back the stored record (or a
fresh one) and touches no other client's entry. -/
theorem getVisitor_below_spec (maxV : Nat) (now : Int) (ip : String)
    (vs : List (String × Visitor)) (hcap : vs.length < maxV) :
    (getVisitor maxV now ip vs).2 = (alookup ip vs).getD (Visitor.mk [] []) ∧
    ∀ ip2, ip2 ≠ ip →
      alookup ip2 (getVisitor maxV now ip vs).1 = alookup ip2 vs := by
  cases h : alookup ip vs with
  | some v =>
      rw [getVisitor_existing maxV now ip vs v h]
      exact ⟨rfl, fun ip2 _ => rfl⟩
  | none =>
      rw [getVisitor_fresh_below maxV now ip vs h hcap]
      exact ⟨rfl, fun ip2 hne => alookup_ainsert_ne _ _ (Ne.symm hne)⟩

/-- C7: with the registry below capacity (so no eviction can fire), a
decision for client `ip` changes no other client's record, and within
`ip`'s record it changes no category other than the request's: every
other category keeps its stored count and timestamp. -/
theorem C7_decision_frame (maxV : Nat) (limits : List (String × RateLimitConfig))
    (ip urlPath : String) (now : Int) (st : RegState)
    (hcap : st.visitors.length < maxV) :
    (∀ ip2, ip2 ≠ ip →
      alookup ip2 ((handleRequest maxV limits ip urlPath now st).1).visitors =
        alookup ip2 st.visitors) ∧
    ∃ v', alookup ip ((handleRequest maxV limits ip urlPath now st).1).visitors =
        some v' ∧
      ∀ c2, c2 ≠ ((handleRequest maxV limits ip urlPath now st).2).category →
        alookup c2 v'.requests =
          alookup c2 ((alookup ip st.visitors).getD (Visitor.mk [] [])).requests ∧
        alookup c2 v'.lastSeen =
          alookup c2 ((alookup ip st.visitors).getD (Visitor.mk [] [])).lastSeen := by
  obtain ⟨hgv2, hgv1⟩ := getVisitor_below_spec maxV now ip st.visitors hcap
  constructor
  · intro ip2 hne
    rw [handleRequest_eq]
    show alookup ip2 (ainsert ip _ (getVisitor maxV now ip st.visitors).1) = _
    rw [alookup_ainsert_ne _ _ (Ne.symm hne)]
    exact hgv1 ip2 hne
  · rw [handleRequest_eq]
    refine ⟨_, alookup_ainsert_self ip _ _, ?_⟩
    intro c2 hc2
    simp only [stepDecision_category] at hc2
    rw [← hgv2]
    exact checkAndIncrement_frame _ _ _ _ c2 hc2

/-- Concrete instance of C7: one request from a new client into a
registry holding one other client. -/
theorem C7_decision_frame_witness :
    (∀ ip2, ip2 ≠ "2.2.2.2" →
      alookup ip2 ((handleRequest 5 rateLimits "2.2.2.2" "/api/users/1" 3
          (RegState.mk [("6.6.6.6", soloVisitor "posts" 4 1)])).1).visitors =
        alookup ip2 [("6.6.6.6", soloVisitor "posts" 4 1)]) ∧
    ∃ v', alookup "2.2.2.2" ((handleRequest 5 rateLimits "2.2.2.2" "/api/users/1" 3
        (RegState.mk [("6.6.6.6", soloVisitor "posts" 4 1)])).1).visitors = some v' ∧
      ∀ c2, c2 ≠ ((handleRequest 5 rateLimits "2.2.2.2" "/api/users/1" 3
          (RegState.mk [("6.6.6.6", soloVisitor "posts" 4 1)])).2).category →
        alookup c2 v'.requests =
          alookup c2 ((alookup "2.2.2.2"
            [("6.6.6.6", soloVisitor "posts" 4 1)]).getD (Visitor.mk [] [])).requests ∧
        alookup c2 v'.lastSeen =
          alookup c2 ((alookup "2.2.2.2"
            [("6.6.6.6", soloVisitor "posts" 4 1)]).getD (Visitor.mk [] [])).lastSeen :=
  C7_decision_frame 5 rateLimits "2.2.2.2" "/api/users/1" 3
    (RegState.mk [("6.6.6.6", soloVisitor "posts" 4 1)]) (by decide)

/-! ## Claim C10 -/

/-- C10: a request whose derived category has no entry in the policy
table is judged against the `"default"` policy, yet counted under its
own segment-named counter — and every other category (hence every
other unknown segment) of the same client keeps its stored count and
timestamp. -/
theorem C10_unknown_segment_default_budget (maxV : Nat)
    (limits : List (String × RateLimitConfig)) (ip urlPath : String) (now : Int)
    (st : RegState)
    (hseg : alookup (classifyPath urlPath) limits = none) :
    ((handleRequest maxV limits ip urlPath now st).2).cfg =
      getRateLimitConfigUnsafe limits "default" ∧
    ((handleRequest maxV limits ip urlPath now st).2).category = classifyPath urlPath ∧
    ∃ v', alookup ip ((handleRequest maxV limits ip urlPath now st).1).visitors =
        some v' ∧
      alookup (classifyPath urlPath) v'.requests =
        some ((handleRequest maxV limits ip urlPath now st).2).reqCount ∧
      alookup (classifyPath urlPath) v'.lastSeen = some now ∧
      ∀ c2, c2 ≠ classifyPath urlPath →
        alookup c2 v'.requests =
          alookup c2 ((getVisitor maxV now ip st.visitors).2).requests ∧
        alookup c2 v'.lastSeen =
          alookup c2 ((getVisitor maxV now ip st.visitors).2).lastSeen := by
  have hdef : getRateLimitConfigUnsafe limits (classifyPath urlPath) =
      getRateLimitConfigUnsafe limits "default" := by
    rw [getRateLimitConfigUnsafe, hseg]
    cases hd : alookup "default" limits with
    | none => rw [getRateLimitConfigUnsafe, hd]
    | some cfg0 => rw [getRateLimitConfigUnsafe, hd]; rfl
  refine ⟨?_, rfl, ?_⟩
  · rw [handleRequest_eq, stepDecision_cfg, hdef]
  · rw [handleRequest_eq]
    refine ⟨_, alookup_ainsert_self ip _ _, ?_, ?_, ?_⟩
    · simp only [stepDecision_reqCount]
      exact (checkAndIncrement_post_lookup _ _ _ _).1
    · exact (checkAndIncrement_post_lookup _ _ _ _).2
    · intro c2 hc2
      exact checkAndIncrement_frame _ _ _ _ c2 hc2

/-- Concrete instance of C10: the unknown segment `foo` is counted
under the key `"foo"` while judged against the default budget. -/
theorem C10_unknown_segment_default_budget_witness :
    ((handleRequest 100 rateLimits "4.4.4.4" "/api/foo/bar" 9 (RegState.mk [])).2).cfg =
      getRateLimitConfigUnsafe rateLimits "default" ∧
    ((handleRequest 100 rateLimits "4.4.4.4" "/api/foo/bar" 9
        (RegState.mk [])).2).category = classifyPath "/api/foo/bar" ∧
    ∃ v', alookup "4.4.4.4" ((handleRequest 100 rateLimits "4.4.4.4" "/api/foo/bar" 9
        (RegState.mk [])).1).visitors = some v' ∧
      alookup (classifyPath "/api/foo/bar") v'.requests =
        some ((handleRequest 100 rateLimits "4.4.4.4" "/api/foo/bar" 9
          (RegState.mk [])).2).reqCount ∧
      alookup (classifyPath "/api/foo/bar") v'.lastSeen = some 9 ∧
      ∀ c2, c2 ≠ classifyPath "/api/foo/bar" →
        alookup c2 v'.requests =
          alookup c2 ((getVisitor 100 9 "4.4.4.4" []).2).requests ∧
        alookup c2 v'.lastSeen =
          alookup c2 ((getVisitor 100 9 "4.4.4.4" []).2).lastSeen :=
  C10_unknown_segment_default_budget 100 rateLimits "4.4.4.4" "/api/foo/bar" 9
    (RegState.mk []) (by decide)

/-! ## Claim C4 -/

theorem stepDecision_response_some (cfg : RateLimitConfig) (c : String) (now cnt : Int)
    (h : cfg.maxRequests < cnt) :
    (stepDecision cfg c now cnt).response =
      some (429, APIResponse.mk false "Request failed" (rateLimitMessage c cfg)) := by
  simp [stepDecision, TooManyRequests, Error, if_pos h]

/-- C4: a rejected request (post-increment count above the budget)
short-circuits — the wrapped handler is not invoked
(`response = some _`) — with HTTP status 429 and the JSON body
`success = false`, `message = "Request failed"`, and
`error = "Rate limit exceeded for <category>: <max> requests allowed
per <window>"`. `utils.TooManyRequests` is modelled from the spec
(see its definition); the body shape comes from `utils.Error`. -/
theorem C4_rejection_shape (maxV : Nat) (limits : List (String × RateLimitConfig))
    (ip urlPath : String) (now : Int) (st : RegState)
    (hrej : ((handleRequest maxV limits ip urlPath now st).2).cfg.maxRequests <
      ((handleRequest maxV limits ip urlPath now st).2).reqCount) :
    ((handleRequest maxV limits ip urlPath now st).2).response =
      some (429, APIResponse.mk false "Request failed"
        ("Rate limit exceeded for "
          ++ ((handleRequest maxV limits ip urlPath now st).2).category ++ ": "
          ++ toString ((handleRequest maxV limits ip urlPath now st).2).cfg.maxRequests
          ++ " requests allowed per "
          ++ durationString
            ((handleRequest maxV limits ip urlPath now st).2).cfg.window)) := by
  rw [handleRequest_eq] at hrej ⊢
  simp only [stepDecision_cfg, stepDecision_reqCount] at hrej
  simp only [stepDecision_cfg, stepDecision_category]
  exact stepDecision_response_some _ _ _ _ hrej

/-- Concrete instance of C4: the 11th `auth` request of a client with
stored count 10 is rejected with the exact message the source
formats. -/
theorem C4_rejection_shape_witness :
    ((handleRequest 10000 rateLimits "8.8.8.8" "/api/auth/login" 5
        (RegState.mk [("8.8.8.8", Visitor.mk [("auth", 10)] [("auth", 0)])])).2).response =
      some (429, APIResponse.mk false "Request failed"
        "Rate limit exceeded for auth: 10 requests allowed per 10m0s") := by
  have h := C4_rejection_shape 10000 rateLimits "8.8.8.8" "/api/auth/login" 5
    (RegState.mk [("8.8.8.8", Visitor.mk [("auth", 10)] [("auth", 0)])]) (by decide)
  rw [h]
  rfl

/-! ## Claim C2 -/

/-- Every `lastSeen` timestamp of every visitor, in scan order. -/
def allTimes (vs : List (String × Visitor)) : List Int :=
  vs.flatMap fun p => p.2.lastSeen.map Prod.snd

theorem mem_allTimes_cons (t : Int) (p : String × Visitor) (vs : List (String × Visitor)) :
    t ∈ allTimes (p :: vs) ↔ (∃ e ∈ p.2.lastSeen, e.2 = t) ∨ t ∈ allTimes vs := by
  simp [allTimes, List.flatMap_cons]

theorem alookup_ne_none_of_mem {α β : Type} [DecidableEq α] {p : α × β}
    {l : List (α × β)} (hp : p ∈ l) : alookup p.1 l ≠ none := by
  obtain ⟨a, b⟩ := p
  induction l with
  | nil => simp at hp
  | cons hd t ih =>
      rcases List.mem_cons.mp hp with h1 | h1
      · rw [← h1]
        simp [alookup]
      · obtain ⟨x, y⟩ := hd
        by_cases hax : x = a <;> simp [alookup, hax, ih h1]

theorem alookup_eq_none_iff_aux {α β : Type} [DecidableEq α] {k : α}
    {l : List (α × β)} : alookup k l = none ↔ k ∉ l.map Prod.fst := by
  induction l with
  | nil => simp
  | cons hd t ih =>
      obtain ⟨a, b⟩ := hd
      by_cases hak : a = k
      · subst hak
        simp [alookup]
      · have hka : ¬k = a := fun h => hak h.symm
        simp only [alookup_cons, if_neg hak, ih, List.map_cons, List.mem_cons]
        constructor
        · intro h hor
          rcases hor with h1 | h1
          · exact hka h1
          · exact h h1
        · intro h h1
          exact h (Or.inr h1)

theorem alookup_aerase_self_of_nodup {α β : Type} [DecidableEq α] (k : α)
    (l : List (α × β)) (hnd : (l.map Prod.fst).Nodup) : alookup k (aerase k l) = none := by
  induction l with
  | nil => simp [aerase]
  | cons hd t ih =>
      obtain ⟨a, b⟩ := hd
      simp only [List.map_cons, List.nodup_cons] at hnd
      by_cases hak : a = k
      · subst hak
        rw [aerase]
        simp only [if_pos rfl]
        exact alookup_eq_none_iff_aux.mpr hnd.1
      · simp [aerase, hak, ih hnd.2]

/-- Invariant of the inner eviction-scan fold over one visitor's
timestamps. -/
theorem oldestInner_spec (ip : String) (ls : List (String × Int)) :
    ∀ acc : String × Int,
      (ls.foldl (fun acc2 e => if e.2 < acc2.2 then (ip, e.2) else acc2) acc = acc ∨
        ((ls.foldl (fun acc2 e => if e.2 < acc2.2 then (ip, e.2) else acc2) acc).1 = ip ∧
          ∃ e ∈ ls, e.2 =
            (ls.foldl (fun acc2 e => if e.2 < acc2.2 then (ip, e.2) else acc2) acc).2)) ∧
      (ls.foldl (fun acc2 e => if e.2 < acc2.2 then (ip, e.2) else acc2) acc).2 ≤ acc.2 ∧
      ∀ e ∈ ls,
        (ls.foldl (fun acc2 e => if e.2 < acc2.2 then (ip, e.2) else acc2) acc).2 ≤ e.2 := by
  induction ls with
  | nil => intro acc; exact ⟨Or.inl rfl, le_refl _, by simp⟩
  | cons e0 t ih =>
      intro acc
      simp only [List.foldl_cons]
      by_cases he : e0.2 < acc.2
      · rw [if_pos he]
        obtain ⟨hc, hle, hall⟩ := ih (ip, e0.2)
        refine ⟨?_, le_trans hle (le_of_lt he), ?_⟩
        · rcases hc with h1 | h1
          · right
            rw [h1]
            exact ⟨rfl, e0, List.mem_cons_self e0 t, rfl⟩
          · right
            obtain ⟨u, hu, hue⟩ := h1.2
            exact ⟨h1.1, u, List.mem_cons_of_mem e0 hu, hue⟩
        · intro f hf
          rcases List.mem_cons.mp hf with h1 | h1
          · rw [h1]
            exact hle
          · exact hall f h1
      · rw [if_neg he]
        obtain ⟨hc, hle, hall⟩ := ih acc
        refine ⟨?_, hle, ?_⟩
        · rcases hc with h1 | h1
          · exact Or.inl h1
          · obtain ⟨u, hu, hue⟩ := h1.2
            exact Or.inr ⟨h1.1, u, List.mem_cons_of_mem e0 hu, hue⟩
        · intro f hf
          rcases List.mem_cons.mp hf with h1 | h1
          · rw [h1]
            exact le_trans hle (not_lt.mp he)
          · exact hall f h1

/-- Invariant of the full eviction scan: the result either is the
initial accumulator or names a visitor together with one of its
timestamps, its time only decreases, and it is a lower bound of every
scanned timestamp. -/
theorem oldestOuter_spec (vs : List (String × Visitor)) :
    ∀ acc : String × Int,
      (vs.foldl (fun acc p => p.2.lastSeen.foldl
          (fun acc2 e => if e.2 < acc2.2 then (p.1, e.2) else acc2) acc) acc = acc ∨
        ∃ p ∈ vs, (vs.foldl (fun acc p => p.2.lastSeen.foldl
            (fun acc2 e => if e.2 < acc2.2 then (p.1, e.2) else acc2) acc) acc).1 = p.1 ∧
          ∃ e ∈ p.2.lastSeen, e.2 = (vs.foldl (fun acc p => p.2.lastSeen.foldl
            (fun acc2 e => if e.2 < acc2.2 then (p.1, e.2) else acc2) acc) acc).2) ∧
      (vs.foldl (fun acc p => p.2.lastSeen.foldl
          (fun acc2 e => if e.2 < acc2.2 then (p.1, e.2) else acc2) acc) acc).2 ≤ acc.2 ∧
      ∀ t ∈ allTimes vs, (vs.foldl (fun acc p => p.2.lastSeen.foldl
          (fun acc2 e => if e.2 < acc2.2 then (p.1, e.2) else acc2) acc) acc).2 ≤ t := by
  induction vs with
  | nil => intro acc; exact ⟨Or.inl rfl, le_refl _, by simp [allTimes]⟩
  | cons p vs ih =>
      intro acc
      simp only [List.foldl_cons]
      obtain ⟨hic, hile, hiall⟩ := oldestInner_spec p.1 p.2.lastSeen acc
      obtain ⟨hoc, hole, hoall⟩ := ih (p.2.lastSeen.foldl
        (fun acc2 e => if e.2 < acc2.2 then (p.1, e.2) else acc2) acc)
      refine ⟨?_, le_trans hole hile, ?_⟩
      · rcases hoc with h1 | h1
        · rcases hic with h2 | h2
          · left
            rw [h1, h2]
          · right
            refine ⟨p, List.mem_cons_self p vs, ?_, ?_⟩
            · rw [h1]
              exact h2.1
            · obtain ⟨e, hemem, he2⟩ := h2.2
              exact ⟨e, hemem, by rw [h1]; exact he2⟩
        · obtain ⟨q, hq, hq1, e, hemem, he2⟩ := h1
          exact Or.inr ⟨q, List.mem_cons_of_mem p hq, hq1, e, hemem, he2⟩
      · intro t ht
        rcases (mem_allTimes_cons t p vs).mp ht with ⟨e, hemem, he2⟩ | h2
        · rw [← he2]
          exact le_trans hole (hiall e hemem)
        · exact hoall t h2

/-- The eviction scan returns its initial accumulator `("", now)` or
names a visitor holding the timestamp it found; that timestamp is a
lower bound of every stored timestamp (the scan computes the argmin
over ALL (visitor, category) timestamps, not over each visitor's most
recent one). -/
theorem findOldest_spec (now : Int) (vs : List (String × Visitor)) :
    (findOldest now vs = ("", now) ∨
      ∃ p ∈ vs, (findOldest now vs).1 = p.1 ∧
        ∃ e ∈ p.2.lastSeen, e.2 = (findOldest now vs).2) ∧
    (findOldest now vs).2 ≤ now ∧
    ∀ t ∈ allTimes vs, (findOldest now vs).2 ≤ t :=
  oldestOuter_spec vs ("", now)

/-- The registry state of the C2 scenario: visitor A was active at
times 1 and 100 (on categories x and y), visitor B at time 50. -/
def c2Registry : RegState :=
  RegState.mk [("A", Visitor.mk [] [("x", 1), ("y", 100)]),
    ("B", Visitor.mk [] [("z", 50)])]

/-- C2 counterexample: the registry is at capacity 2 with A (most
recent activity 100) and B (most recent activity 50). B is the
least-recently-active visitor, yet the request of the new client C
evicts A — the holder of the globally oldest single timestamp (1) —
and keeps B. -/
theorem C2_counterexample :
    alookup "A" ((handleRequest 2 rateLimits "C" "/api/posts/1" 200
        c2Registry).1).visitors = none ∧
    alookup "B" ((handleRequest 2 rateLimits "C" "/api/posts/1" 200
        c2Registry).1).visitors = some (Visitor.mk [] [("z", 50)]) ∧
    (50 : Int) < 100 := by
  refine ⟨rfl, rfl, by decide⟩

/-- C2 (amended): when the registry is at capacity `K = maxVisitors`
(keys distinct and non-empty, some stored timestamp before `now`) and
a request arrives from a fresh ClientKey, exactly one visitor is
evicted — the holder of the globally oldest per-category timestamp,
i.e. the visitor whose OLDEST (not most recent) stamp is the minimum
over all (visitor, category) pairs — the new client is inserted,
every other record is unchanged, and the registry size remains `K`. -/
theorem C2_amended_capacity_eviction (maxV : Nat)
    (limits : List (String × RateLimitConfig)) (ip urlPath : String) (now : Int)
    (st : RegState)
    (hcap : st.visitors.length = maxV)
    (hnew : alookup ip st.visitors = none)
    (hnd : (st.visitors.map Prod.fst).Nodup)
    (hkeys : ∀ p ∈ st.visitors, p.1 ≠ "")
    (hold : ∃ t ∈ allTimes st.visitors, t < now) :
    ((handleRequest maxV limits ip urlPath now st).1).visitors.length = maxV ∧
    (∃ p ∈ st.visitors, p.1 = (findOldest now st.visitors).1 ∧
      alookup p.1 ((handleRequest maxV limits ip urlPath now st).1).visitors = none ∧
      (∃ e ∈ p.2.lastSeen, e.2 = (findOldest now st.visitors).2) ∧
      ∀ t ∈ allTimes st.visitors, (findOldest now st.visitors).2 ≤ t) ∧
    (∃ v', alookup ip ((handleRequest maxV limits ip urlPath now st).1).visitors =
      some v') ∧
    (∀ ip2, ip2 ≠ ip → ip2 ≠ (findOldest now st.visitors).1 →
      alookup ip2 ((handleRequest maxV limits ip urlPath now st).1).visitors =
        alookup ip2 st.visitors) := by
  obtain ⟨t0, ht0mem, ht0⟩ := hold
  obtain ⟨hcase, hle, hmin⟩ := findOldest_spec now st.visitors
  have hfo2 : (findOldest now st.visitors).2 < now := lt_of_le_of_lt (hmin t0 ht0mem) ht0
  have hpe : ∃ p ∈ st.visitors, (findOldest now st.visitors).1 = p.1 ∧
      ∃ e ∈ p.2.lastSeen, e.2 = (findOldest now st.visitors).2 := by
    rcases hcase with h1 | h1
    · exfalso
      rw [h1] at hfo2
      exact lt_irrefl now hfo2
    · exact h1
  obtain ⟨p, hpmem, hp1, e, hemem, he2⟩ := hpe
  have hfo1ne : (findOldest now st.visitors).1 ≠ "" := by
    rw [hp1]
    exact hkeys p hpmem
  have hpmem1 : alookup p.1 st.visitors ≠ none := alookup_ne_none_of_mem hpmem
  have hfoip : (findOldest now st.visitors).1 ≠ ip := by
    rw [hp1]
    intro hh
    rw [hh] at hpmem1
    exact hpmem1 hnew
  have hcond : maxV ≤ st.visitors.length := le_of_eq hcap.symm
  have hgv : getVisitor maxV now ip st.visitors =
      (ainsert ip (Visitor.mk [] [])
        (aerase (findOldest now st.visitors).1 st.visitors), Visitor.mk [] []) := by
    simp only [getVisitor, hnew, if_pos hcond, if_pos hfo1ne]
  have hHR : ((handleRequest maxV limits ip urlPath now st).1).visitors =
      ainsert ip (checkAndIncrement (getRateLimitConfigUnsafe limits (classifyPath urlPath))
          (classifyPath urlPath) now (Visitor.mk [] [])).1
        (ainsert ip (Visitor.mk [] [])
          (aerase (findOldest now st.visitors).1 st.visitors)) := by
    rw [handleRequest_eq]
    show ainsert ip (checkAndIncrement _ _ now (getVisitor maxV now ip st.visitors).2).1
        (getVisitor maxV now ip st.visitors).1 = _
    rw [hgv]
  have hverase : alookup ip (aerase (findOldest now st.visitors).1 st.visitors) = none := by
    rw [alookup_aerase_ne _ hfoip]
    exact hnew
  have hlen1 : (aerase (findOldest now st.visitors).1 st.visitors).length + 1 =
      st.visitors.length := by
    apply aerase_length_of_mem
    rw [hp1]
    exact hpmem1
  refine ⟨?_, ?_, ?_, ?_⟩
  · rw [hHR]
    rw [length_ainsert_of_alookup_some _ _ (alookup_ainsert_self ip (Visitor.mk [] []) _)]
    rw [length_ainsert_of_alookup_none _ hverase]
    omega
  · refine ⟨p, hpmem, hp1.symm, ?_, ⟨e, hemem, he2⟩, hmin⟩
    rw [hHR, ← hp1]
    rw [alookup_ainsert_ne _ _ (Ne.symm hfoip), alookup_ainsert_ne _ _ (Ne.symm hfoip)]
    exact alookup_aerase_self_of_nodup _ _ hnd
  · rw [hHR]
    exact ⟨_, alookup_ainsert_self ip _ _⟩
  · intro ip2 hne2 hnefo
    rw [hHR]
    rw [alookup_ainsert_ne _ _ (Ne.symm hne2), alookup_ainsert_ne _ _ (Ne.symm hne2)]
    exact alookup_aerase_ne _ (Ne.symm hnefo)

/-- Concrete instance of the amended C2 on the registry of the
counterexample. -/
theorem C2_amended_capacity_eviction_witness :
    ((handleRequest 2 rateLimits "C" "/api/posts/1" 200 c2Registry).1).visitors.length = 2 ∧
    (∃ p ∈ c2Registry.visitors, p.1 = (findOldest 200 c2Registry.visitors).1 ∧
      alookup p.1 ((handleRequest 2 rateLimits "C" "/api/posts/1" 200
        c2Registry).1).visitors = none ∧
      (∃ e ∈ p.2.lastSeen, e.2 = (findOldest 200 c2Registry.visitors).2) ∧
      ∀ t ∈ allTimes c2Registry.visitors, (findOldest 200 c2Registry.visitors).2 ≤ t) ∧
    (∃ v', alookup "C" ((handleRequest 2 rateLimits "C" "/api/posts/1" 200
      c2Registry).1).visitors = some v') ∧
    (∀ ip2, ip2 ≠ "C" → ip2 ≠ (findOldest 200 c2Registry.visitors).1 →
      alookup ip2 ((handleRequest 2 rateLimits "C" "/api/posts/1" 200
          c2Registry).1).visitors = alookup ip2 c2Registry.visitors) :=
  C2_amended_capacity_eviction 2 rateLimits "C" "/api/posts/1" 200 c2Registry
    (by decide) (by decide) (by decide) (by decide) ⟨1, by decide, by decide⟩

end ForumRL
